import Mathlib

/-!
Verification of the peer-connection negotiation core of a video-calling
client.  The development shallowly embeds two modules:

* the full-mesh negotiator of `src/hooks/use-webrtc.ts` (peer registry,
  offer/answer/ICE handlers, `connectToAllParticipants`), and
* the SFU session manager of `src/lib/webrtc-sfu.ts` (`SFUClient`:
  transports, producer, consumers, remote participants).

Stateful TypeScript is modelled as pure functions from a state to a pair
of the next state and the list of emitted messages / side effects.
JavaScript objects and ES `Map`s keyed by strings are modelled as
association lists with the object-spread / `Map.set` update semantics
(replace in place when the key exists, append otherwise).
-/

namespace VDO

/-- Generic association-list lookup, modelling `record[k]` / `map.get(k)`. -/

def lookupA {β : Type} (k : String) : List (String × β) → Option β
  | [] => none
  | (k', v) :: rest => if k' = k then some v else lookupA k rest

/-- Update semantics of `{...prev, [k]: v}` and `map.set(k, v)`: an existing
key keeps its position and gets the new value, a new key is appended. -/

def upsertA {β : Type} (k : String) (v : β) : List (String × β) → List (String × β)
  | [] => [(k, v)]
  | (k', v') :: rest => if k' = k then (k, v) :: rest else (k', v') :: upsertA k v rest

/-- Deletion semantics of `map.delete(k)` and `const \x7b[k]: _, ...rest\x7d = prev`
(removes the first — under unique keys, the only — binding of `k`). -/

def eraseA {β : Type} (k : String) : List (String × β) → List (String × β)
  | [] => []
  | (k', v') :: rest => if k' = k then rest else (k', v') :: eraseA k rest

/-! ### Mesh negotiator (`src/hooks/use-webrtc.ts`) -/

/-- Display identity, from `src/types/index.ts` (`User`); only the fields the
negotiator reads are kept. -/

structure User where
  id : String
  name : String
deriving DecidableEq

/-- A roster entry of `Room.participants`, which the source types as
`Participant[] | User[]` and discriminates with a `'userId' in p` check. -/

inductive RoomMember where
  | enriched (userId : String) (user : User)
  | plain (user : User)
deriving DecidableEq

/-- The identifier branch `'userId' in p ? p.userId : p.id`. -/

def RoomMember.memberId : RoomMember → String
  | .enriched uid _ => uid
  | .plain u => u.id

/-- The display-identity branch `'userId' in p ? p.user : p`. -/

def RoomMember.userData : RoomMember → User
  | .enriched _ u => u
  | .plain u => u

/-- The parts of `Room` the negotiator reads. -/

structure Room where
  id : String
  participants : List RoomMember
deriving DecidableEq

/-- A registry entry (`PeerConnection` in `src/types/index.ts`).  The
underlying `RTCPeerConnection` object is identified by the allocation
counter `connId`; the descriptions and candidates applied to it are kept
inline so that mutation of the connection is observable. -/

structure PeerEntry where
  peerId : String
  connId : Nat
  user : User
  remoteDesc : Option String
  candidates : List String
  stream : Option Nat
deriving DecidableEq

/-- State closed over by the `useWebRTC` hook: the current room and user,
the `peers` registry (`Record<string, PeerConnection>`), and a counter
allocating fresh `RTCPeerConnection` identities. -/

structure MeshState where
  currentRoom : Option Room
  currentUser : Option User
  peers : List (String × PeerEntry)
  nextConn : Nat
deriving DecidableEq

/-- Messages the negotiator emits through `socketService`. -/

inductive MeshMsg where
  | offer (target sender roomId : String)
  | answer (target sender roomId : String)
deriving DecidableEq

/-- Mirrors `getCurrentUserId`: `currentUser?.id || ''`. -/

def getCurrentUserId (s : MeshState) : String :=
  match s.currentUser with
  | some u => u.id
  | none => ""

/-- Mirrors `createOffer(targetUserId, targetUser)`: bails out unless a room
and user are present, then creates a fresh connection, stores it in the
registry under `targetUserId` (object spread: replacing any previous
entry), and sends the offer. -/

def createOffer (s : MeshState) (targetUserId : String) (targetUser : User) :
    MeshState × List MeshMsg :=
  match s.currentRoom, s.currentUser with
  | some room, some _ =>
      let entry : PeerEntry :=
        { peerId := targetUserId, connId := s.nextConn, user := targetUser,
          remoteDesc := none, candidates := [], stream := none }
      ({ s with peers := upsertA targetUserId entry s.peers, nextConn := s.nextConn + 1 },
       [MeshMsg.offer targetUserId (getCurrentUserId s) room.id])
  | _, _ => (s, [])

/-- Payload of a `webrtc:offer` event (`from` is spelled `fromId`). -/

structure OfferData where
  fromId : String
  offer : String
  roomId : String
deriving DecidableEq

/-- Payload of a `webrtc:answer` event. -/

structure AnswerData where
  fromId : String
  answer : String
  roomId : String
deriving DecidableEq

/-- Payload of a `webrtc:ice-candidate` event. -/

structure IceData where
  fromId : String
  candidate : String
  roomId : String
deriving DecidableEq

/-- Mirrors `handleOffer`: drops the envelope when no room/user is present or
the `roomId` does not match; requires the sender to be a room participant;
otherwise creates a fresh connection, stores it (replacing any previous
entry for the sender), applies the offer as the remote description and
sends back an answer. -/

def handleOffer (s : MeshState) (d : OfferData) : MeshState × List MeshMsg :=
  match s.currentRoom, s.currentUser with
  | some room, some _ =>
      if d.roomId ≠ room.id then (s, [])
      else
        match room.participants.find? (fun p => p.memberId = d.fromId) with
        | none => (s, [])
        | some fromUser =>
            let entry : PeerEntry :=
              { peerId := d.fromId, connId := s.nextConn, user := fromUser.userData,
                remoteDesc := some d.offer, candidates := [], stream := none }
            ({ s with peers := upsertA d.fromId entry s.peers, nextConn := s.nextConn + 1 },
             [MeshMsg.answer d.fromId (getCurrentUserId s) room.id])
  | _, _ => (s, [])

/-- Mirrors `handleAnswer`: drops the envelope when no room is present or the
`roomId` does not match; applies the answer as the remote description of
the registered connection when one exists, and silently returns
otherwise. -/

def handleAnswer (s : MeshState) (d : AnswerData) : MeshState × List MeshMsg :=
  match s.currentRoom with
  | none => (s, [])
  | some room =>
      if d.roomId ≠ room.id then (s, [])
      else
        match lookupA d.fromId s.peers with
        | some peerData =>
            ({ s with peers := upsertA d.fromId { peerData with remoteDesc := some d.answer } s.peers },
             [])
        | none => (s, [])

/-- Mirrors `handleIceCandidate`: drops the envelope when no room is present
or the `roomId` does not match; adds the candidate to the registered
connection when one exists, and silently returns otherwise. -/

def handleIceCandidate (s : MeshState) (d : IceData) : MeshState × List MeshMsg :=
  match s.currentRoom with
  | none => (s, [])
  | some room =>
      if d.roomId ≠ room.id then (s, [])
      else
        match lookupA d.fromId s.peers with
        | some peerData =>
            ({ s with peers :=
                upsertA d.fromId { peerData with candidates := peerData.candidates ++ [d.candidate] } s.peers },
             [])
        | none => (s, [])

/-- The roster loop of `connectToAllParticipants`.  The guard
`if (peers[participantId]) return` reads the render-time closure over
`peers` — a snapshot taken before the loop — while the `setPeers`
functional updates of `createOffer` accumulate on the live state, so the
snapshot is threaded separately from the state. -/

def connectLoop (snapshot : List (String × PeerEntry)) (selfId : String)
    (members : List RoomMember) (s : MeshState) : MeshState × List MeshMsg :=
  match members with
  | [] => (s, [])
  | m :: rest =>
      if m.memberId = selfId then connectLoop snapshot selfId rest s
      else
        match lookupA m.memberId snapshot with
        | some _ => connectLoop snapshot selfId rest s
        | none =>
            let res := createOffer s m.memberId m.userData
            let res' := connectLoop snapshot selfId rest res.1
            (res'.1, res.2 ++ res'.2)

/-- Mirrors `connectToAllParticipants`: for every roster member other than
self without an existing registry entry, calls `createOffer`. -/

def connectToAllParticipants (s : MeshState) : MeshState × List MeshMsg :=
  match s.currentRoom, s.currentUser with
  | some room, some u => connectLoop s.peers u.id room.participants s
  | _, _ => (s, [])

/-! ### SFU session manager (`src/lib/webrtc-sfu.ts`, class `SFUClient`) -/

/-- A media kind (`'video' | 'audio'`). -/

inductive MKind where
  | video
  | audio
deriving DecidableEq

/-- A remote `MediaStreamTrack` held by a consumer. -/

structure Track where
  kind : MKind
  trackId : Nat
deriving DecidableEq

/-- A mediasoup `Consumer` handle as the client sees it. -/

structure Consumer where
  id : String
  track : Track
deriving DecidableEq

/-- The `MediaState` interface of `webrtc-sfu.ts`. -/

structure MediaState where
  video : Bool
  audio : Bool
  screenShare : Bool
deriving DecidableEq

/-- The `RemoteParticipant` interface of `webrtc-sfu.ts`. -/

structure RemoteParticipant where
  peerId : String
  userName : String
  consumer : Option Consumer
  stream : Option (List Track)
  mediaState : MediaState
deriving DecidableEq

/-- A mediasoup `Producer` handle; `producerId` identifies the underlying
object so that re-producing (a fresh object) is distinguishable from
resuming the existing one. -/

structure Producer where
  producerId : Nat
  kind : MKind
  paused : Bool
deriving DecidableEq

/-- A mediasoup `Transport` handle. -/

structure Transport where
  id : String
deriving DecidableEq

/-- Transport direction (`'send' | 'recv'`). -/

inductive Direction where
  | send
  | recv
deriving DecidableEq

/-- A track of the local `MediaStream`. -/

structure LocalTrack where
  kind : MKind
  enabled : Bool
deriving DecidableEq

/-- The mutable fields of `SFUClient` the lifecycle operations touch. -/

structure SFUState where
  sendTransport : Option Transport
  recvTransport : Option Transport
  producer : Option Producer
  consumers : List (String × Consumer)
  remoteParticipants : List (String × RemoteParticipant)
  localStream : Option (List LocalTrack)
  isConnected : Bool
deriving DecidableEq

/-- Messages emitted to the signaling socket and callbacks invoked on the UI
collaborator, plus close/stop effects on the underlying media objects. -/

inductive SFUOut where
  | createTransport (direction : Direction)
  | consumeReq (producerId : String)
  | resumeConsumer (consumerId : String)
  | pauseProducer (pause : Bool)
  | remoteStream (peerId : String) (stream : List Track)
  | remoteStreamRemoved (peerId : String)
  | participantJoined (peerId : String)
  | participantLeft (peerId : String)
  | consumerClosed (consumerId : String)
  | producerClosed
  | transportClosed (direction : Direction)
  | trackStopped (kind : MKind)
  | connectionState (st : String)
deriving DecidableEq

/-- The freshly constructed `SFUClient` state: no transports, no producer, no
consumers, no participants, no local stream, not connected. -/

def sfuInit : SFUState :=
  { sendTransport := none, recvTransport := none, producer := none,
    consumers := [], remoteParticipants := [], localStream := none,
    isConnected := false }

/-- Mirrors `SFUClient.consume(producerId)`: when no receive transport exists
it only emits `sfu:create-transport direction recv` and returns (nothing
records the producerId); otherwise it emits `sfu:consume` for the
producer. -/

def consume (s : SFUState) (producerId : String) : SFUState × List SFUOut :=
  match s.recvTransport with
  | none => (s, [SFUOut.createTransport Direction.recv])
  | some _ => (s, [SFUOut.consumeReq producerId])

/-- Mirrors the `sfu:transport-created` handler: installs the created send or
receive transport and emits nothing. -/

def onTransportCreated (s : SFUState) (direction : Direction) (id : String) :
    SFUState × List SFUOut :=
  match direction with
  | .send => ({ s with sendTransport := some { id := id } }, [])
  | .recv => ({ s with recvTransport := some { id := id } }, [])

/-- Mirrors the `sfu:consumer-created` handler: looks the consumer up in the
`consumers` map; if present, builds a single-track stream, upserts the
`remoteParticipants` entry for the producing peer (create on first sight,
update in place thereafter), notifies the UI collaborator and requests
`sfu:resume-consumer`; if absent, does nothing. -/

def onConsumerCreated (s : SFUState) (cid ppid : String) (kind : MKind) :
    SFUState × List SFUOut :=
  match lookupA cid s.consumers with
  | none => (s, [])
  | some consumer =>
      let stream := [consumer.track]
      match lookupA ppid s.remoteParticipants with
      | none =>
          let participant : RemoteParticipant :=
            { peerId := ppid, userName := "User " ++ ppid,
              consumer := some consumer, stream := some stream,
              mediaState := { video := decide (kind = MKind.video),
                              audio := decide (kind = MKind.audio),
                              screenShare := false } }
          ({ s with remoteParticipants := upsertA ppid participant s.remoteParticipants },
           [SFUOut.participantJoined ppid, SFUOut.remoteStream ppid stream,
            SFUOut.resumeConsumer cid])
      | some participant =>
          let participant' : RemoteParticipant :=
            { participant with consumer := some consumer, stream := some stream }
          ({ s with remoteParticipants := upsertA ppid participant' s.remoteParticipants },
           [SFUOut.remoteStream ppid stream, SFUOut.resumeConsumer cid])

/-- The test `participant.consumer && participant.consumer.id === consumerId`
of the `sfu:consumer-closed` handler. -/

def participantConsumerIs (p : RemoteParticipant) (cid : String) : Bool :=
  match p.consumer with
  | some c => c.id = cid
  | none => false

/-- The participant scan of the `sfu:consumer-closed` handler: deletes the
first entry owning the closed consumer, fires the removal callbacks for
it, and stops (`break`). -/

def removeParticipantByConsumer (cid : String) :
    List (String × RemoteParticipant) → List (String × RemoteParticipant) × List SFUOut
  | [] => ([], [])
  | (pid, participant) :: rest =>
      if participantConsumerIs participant cid then
        (rest, [SFUOut.remoteStreamRemoved pid, SFUOut.participantLeft pid])
      else
        let res := removeParticipantByConsumer cid rest
        ((pid, participant) :: res.1, res.2)

/-- Mirrors the `sfu:consumer-closed` handler: closes and removes the named
consumer when it is in the map, then removes the first participant entry
owning it. -/

def onConsumerClosed (s : SFUState) (cid : String) : SFUState × List SFUOut :=
  let closeOuts : List SFUOut :=
    match lookupA cid s.consumers with
    | some _ => [SFUOut.consumerClosed cid]
    | none => []
  let consumers' :=
    match lookupA cid s.consumers with
    | some _ => eraseA cid s.consumers
    | none => s.consumers
  let res := removeParticipantByConsumer cid s.remoteParticipants
  ({ s with consumers := consumers', remoteParticipants := res.1 },
   closeOuts ++ res.2)

/-- `localStream.getVideoTracks()[0].enabled = enabled`: flips the first
video track of the local stream. -/

def enableFirstVideoTrack (enabled : Bool) : List LocalTrack → List LocalTrack
  | [] => []
  | t :: rest =>
      if t.kind = MKind.video then { t with enabled := enabled } :: rest
      else t :: enableFirstVideoTrack enabled rest

/-- Mirrors `SFUClient.toggleVideo(enabled)`: no-op without a local stream;
otherwise flips the local video track, and when the held producer is a
video producer, resumes/pauses that same producer and emits
`sfu:pause-producer` — it never creates a producer. -/

def toggleVideo (s : SFUState) (enabled : Bool) : SFUState × List SFUOut :=
  match s.localStream with
  | none => (s, [])
  | some tracks =>
      let s1 := { s with localStream := some (enableFirstVideoTrack enabled tracks) }
      match s1.producer with
      | some p =>
          if p.kind = MKind.video then
            ({ s1 with producer := some { p with paused := !enabled } },
             [SFUOut.pauseProducer (!enabled)])
          else (s1, [])
      | none => (s1, [])

/-- The number of video producers the session holds (`SFUClient.producer` is
the only producer field, assigned from producing the video track). -/

def videoProducerCount (s : SFUState) : Nat :=
  match s.producer with
  | some p => if p.kind = MKind.video then 1 else 0
  | none => 0

/-- Mirrors `SFUClient.disconnect()`: closes every consumer and clears the
map, closes and nulls the producer and both transports, stops all local
tracks and nulls the stream, clears the participants, marks the session
disconnected and reports the state change. -/

def disconnect (s : SFUState) : SFUState × List SFUOut :=
  let consumerOuts := s.consumers.map fun kv => SFUOut.consumerClosed kv.2.id
  let producerOuts : List SFUOut :=
    match s.producer with
    | some _ => [SFUOut.producerClosed]
    | none => []
  let sendOuts : List SFUOut :=
    match s.sendTransport with
    | some _ => [SFUOut.transportClosed Direction.send]
    | none => []
  let recvOuts : List SFUOut :=
    match s.recvTransport with
    | some _ => [SFUOut.transportClosed Direction.recv]
    | none => []
  let trackOuts : List SFUOut :=
    match s.localStream with
    | some tracks => tracks.map fun t => SFUOut.trackStopped t.kind
    | none => []
  (sfuInit,
   consumerOuts ++ producerOuts ++ sendOuts ++ recvOuts ++ trackOuts
     ++ [SFUOut.connectionState "disconnected"])

/-! ### Concrete mesh fixtures -/

def userAlice : User := { id := "alice", name := "Alice" }

def userBob : User := { id := "bob", name := "Bob" }

/-- A registry entry for Bob backed by connection number 0. -/

def entryBob0 : PeerEntry :=
  { peerId := "bob", connId := 0, user := userBob,
    remoteDesc := none, candidates := [], stream := none }

def roomEx : Room :=
  { id := "room1",
    participants := [RoomMember.plain userAlice, RoomMember.enriched "bob" userBob] }

/-- Alice's hook state in `room1` with Bob already registered. -/

def meshEx : MeshState :=
  { currentRoom := some roomEx, currentUser := some userAlice,
    peers := [("bob", entryBob0)], nextConn := 1 }

/-! ### Concrete SFU fixtures -/

/-- A concrete remote video track. -/

def trackV : Track := { kind := MKind.video, trackId := 10 }

/-- A consumer with id `c1` delivering the video track. -/

def consumerC1 : Consumer := { id := "c1", track := trackV }

/-- A consumer with id `c2` delivering an audio track. -/

def consumerC2 : Consumer := { id := "c2", track := { kind := MKind.audio, trackId := 20 } }

/-- A session whose consumers map holds `c1`. -/

def sfuWithConsumer : SFUState := { sfuInit with consumers := [("c1", consumerC1)] }

/-- Remote participant owning consumer `c1`. -/

def partA : RemoteParticipant :=
  { peerId := "peerA", userName := "User peerA", consumer := some consumerC1,
    stream := some [trackV],
    mediaState := { video := true, audio := false, screenShare := false } }

/-- Remote participant owning consumer `c2`. -/

def partB : RemoteParticipant :=
  { peerId := "peerB", userName := "User peerB", consumer := some consumerC2,
    stream := some [consumerC2.track],
    mediaState := { video := false, audio := true, screenShare := false } }

/-- A connected session with two consumers, each owned by its own remote
participant, one active video producer, both transports and a two-track
local stream. -/

def sfuTwo : SFUState :=
  { sendTransport := some { id := "st" }, recvTransport := some { id := "rt" },
    producer := some { producerId := 7, kind := MKind.video, paused := false },
    consumers := [("c1", consumerC1), ("c2", consumerC2)],
    remoteParticipants := [("peerA", partA), ("peerB", partB)],
    localStream := some [{ kind := MKind.video, enabled := true },
                         { kind := MKind.audio, enabled := true }],
    isConnected := true }

theorem lookupA_upsertA_self {β : Type} (k : String) (v : β) (l : List (String × β)) :
    lookupA k (upsertA k v l) = some v := by
  induction l with
  | nil => simp [lookupA, upsertA]
  | cons kv rest ih =>
    obtain ⟨k', v'⟩ := kv
    by_cases h : k' = k
    · simp [lookupA, upsertA, h]
    · simp [lookupA, upsertA, h, ih]

theorem lookupA_upsertA_ne {β : Type} (k q : String) (v : β) (l : List (String × β))
    (h : q ≠ k) : lookupA q (upsertA k v l) = lookupA q l := by
  have hkq : ¬(k = q) := fun hk => h hk.symm
  induction l with
  | nil => simp [lookupA, upsertA, hkq]
  | cons kv rest ih =>
    obtain ⟨k', v'⟩ := kv
    by_cases hk : k' = k
    · subst hk
      simp [lookupA, upsertA, hkq]
    · simp only [upsertA, if_neg hk]
      by_cases hq : k' = q
      · simp [lookupA, hq]
      · simp [lookupA, hq, ih]

theorem upsertA_keys_of_mem {β : Type} (k : String) (v : β) (l : List (String × β))
    (h : (lookupA k l).isSome) : (upsertA k v l).map Prod.fst = l.map Prod.fst := by
  induction l with
  | nil => simp [lookupA] at h
  | cons kv rest ih =>
    obtain ⟨k', v'⟩ := kv
    by_cases hk : k' = k
    · simp [upsertA, hk]
    · simp [lookupA, hk] at h
      simp [upsertA, hk, ih h]

theorem upsertA_keys_of_not_mem {β : Type} (k : String) (v : β) (l : List (String × β))
    (h : lookupA k l = none) : (upsertA k v l).map Prod.fst = l.map Prod.fst ++ [k] := by
  induction l with
  | nil => simp [upsertA]
  | cons kv rest ih =>
    obtain ⟨k', v'⟩ := kv
    by_cases hk : k' = k
    · simp [lookupA, hk] at h
    · simp [lookupA, hk] at h
      simp [upsertA, hk, ih h]

theorem lookupA_eq_none_iff {β : Type} (k : String) (l : List (String × β)) :
    lookupA k l = none ↔ k ∉ l.map Prod.fst := by
  induction l with
  | nil => simp [lookupA]
  | cons kv rest ih =>
    obtain ⟨k', v'⟩ := kv
    by_cases hk : k' = k
    · simp [lookupA, hk]
    · simp [lookupA, hk, ih, Ne.symm hk]

theorem upsertA_nodup_keys {β : Type} (k : String) (v : β) (l : List (String × β))
    (h : (l.map Prod.fst).Nodup) : ((upsertA k v l).map Prod.fst).Nodup := by
  rcases ho : lookupA k l with _ | w
  · rw [upsertA_keys_of_not_mem k v l ho]
    have hk : k ∉ l.map Prod.fst := (lookupA_eq_none_iff k l).mp ho
    rw [List.nodup_append]
    refine ⟨h, List.nodup_singleton k, ?_⟩
    intro a ha hb
    simp only [List.mem_singleton] at hb
    subst hb
    exact hk ha
  · rw [upsertA_keys_of_mem k v l (by simp [ho])]
    exact h

/-! ### Mesh helper lemmas -/

theorem lookupA_mem {β : Type} (k : String) (v : β) (l : List (String × β))
    (h : lookupA k l = some v) : (k, v) ∈ l := by
  induction l with
  | nil => simp [lookupA] at h
  | cons kv rest ih =>
    obtain ⟨k', v'⟩ := kv
    by_cases hk : k' = k
    · subst hk
      simp [lookupA] at h
      subst h
      exact List.mem_cons_self _ _
    · simp only [lookupA, if_neg hk] at h
      exact List.mem_cons_of_mem _ (ih h)

theorem createOffer_preserves_context (s : MeshState) (pid : String) (u : User) :
    (createOffer s pid u).1.currentRoom = s.currentRoom
    ∧ (createOffer s pid u).1.currentUser = s.currentUser := by
  rcases hr : s.currentRoom with _ | room <;> rcases hu : s.currentUser with _ | v <;>
    simp [createOffer, hr, hu]

theorem createOffer_mono (s : MeshState) (pid : String) (u : User) (k : String)
    (h : (lookupA k s.peers).isSome) : (lookupA k (createOffer s pid u).1.peers).isSome := by
  rcases hr : s.currentRoom with _ | room
  · simpa [createOffer, hr] using h
  rcases hu : s.currentUser with _ | v
  · simpa [createOffer, hr, hu] using h
  by_cases hk : k = pid
  · subst hk
    simp [createOffer, hr, hu, lookupA_upsertA_self]
  · simpa [createOffer, hr, hu, lookupA_upsertA_ne _ _ _ _ hk] using h

theorem createOffer_adds (s : MeshState) (room : Room) (v : User) (pid : String) (u : User)
    (hr : s.currentRoom = some room) (hu : s.currentUser = some v) :
    (lookupA pid (createOffer s pid u).1.peers).isSome := by
  simp [createOffer, hr, hu, lookupA_upsertA_self]

theorem connectLoop_preserves_context (snapshot : List (String × PeerEntry)) (selfId : String)
    (members : List RoomMember) (s : MeshState) :
    (connectLoop snapshot selfId members s).1.currentRoom = s.currentRoom
    ∧ (connectLoop snapshot selfId members s).1.currentUser = s.currentUser := by
  induction members generalizing s with
  | nil => simp [connectLoop]
  | cons m rest ih =>
    by_cases h1 : m.memberId = selfId
    · simpa [connectLoop, h1] using ih s
    rcases ho : lookupA m.memberId snapshot with _ | w
    · have hc := createOffer_preserves_context s m.memberId m.userData
      have hi := ih (createOffer s m.memberId m.userData).1
      simp only [connectLoop, if_neg h1, ho]
      exact ⟨hi.1.trans hc.1, hi.2.trans hc.2⟩
    · simpa [connectLoop, h1, ho] using ih s

theorem connectLoop_mono (snapshot : List (String × PeerEntry)) (selfId : String)
    (members : List RoomMember) (s : MeshState) (k : String)
    (h : (lookupA k s.peers).isSome) :
    (lookupA k (connectLoop snapshot selfId members s).1.peers).isSome := by
  induction members generalizing s with
  | nil => simpa [connectLoop] using h
  | cons m rest ih =>
    by_cases h1 : m.memberId = selfId
    · simpa [connectLoop, h1] using ih s h
    rcases ho : lookupA m.memberId snapshot with _ | w
    · simp only [connectLoop, if_neg h1, ho]
      exact ih _ (createOffer_mono s _ _ k h)
    · simpa [connectLoop, h1, ho] using ih s h

theorem connectLoop_covers (snapshot : List (String × PeerEntry)) (selfId : String)
    (members : List RoomMember) (s : MeshState) (room : Room) (v : User)
    (hr : s.currentRoom = some room) (hu : s.currentUser = some v)
    (hsnap : ∀ k, (lookupA k snapshot).isSome → (lookupA k s.peers).isSome) :
    ∀ m ∈ members, m.memberId = selfId ∨
      (lookupA m.memberId (connectLoop snapshot selfId members s).1.peers).isSome := by
  induction members generalizing s with
  | nil => simp
  | cons m rest ih =>
    intro m' hm'
    rcases List.mem_cons.mp hm' with hm | hm
    · subst hm
      by_cases h1 : m'.memberId = selfId
      · exact Or.inl h1
      rcases ho : lookupA m'.memberId snapshot with _ | w
      · right
        simp only [connectLoop, if_neg h1, ho]
        exact connectLoop_mono snapshot selfId rest _ _
          (createOffer_adds s room v m'.memberId m'.userData hr hu)
      · right
        simp only [connectLoop, if_neg h1, ho]
        exact connectLoop_mono snapshot selfId rest s _ (hsnap _ (by simp [ho]))
    · by_cases h1 : m.memberId = selfId
      · simpa [connectLoop, h1] using ih s hr hu hsnap m' hm
      rcases ho : lookupA m.memberId snapshot with _ | w
      · have hc := createOffer_preserves_context s m.memberId m.userData
        have hr' : (createOffer s m.memberId m.userData).1.currentRoom = some room :=
          hc.1.trans hr
        have hu' : (createOffer s m.memberId m.userData).1.currentUser = some v :=
          hc.2.trans hu
        have hsnap' : ∀ k, (lookupA k snapshot).isSome →
            (lookupA k (createOffer s m.memberId m.userData).1.peers).isSome :=
          fun k hk => createOffer_mono s _ _ k (hsnap k hk)
        simpa [connectLoop, h1, ho] using ih _ hr' hu' hsnap' m' hm
      · simpa [connectLoop, h1, ho] using ih s hr hu hsnap m' hm

theorem connectToAllParticipants_eq (s : MeshState) (room : Room) (v : User)
    (hr : s.currentRoom = some room) (hu : s.currentUser = some v) :
    connectToAllParticipants s = connectLoop s.peers v.id room.participants s := by
  simp [connectToAllParticipants, hr, hu]

theorem connectLoop_skip (snapshot : List (String × PeerEntry)) (selfId : String)
    (members : List RoomMember) (s : MeshState)
    (h : ∀ m ∈ members, m.memberId = selfId ∨ (lookupA m.memberId snapshot).isSome) :
    connectLoop snapshot selfId members s = (s, []) := by
  induction members generalizing s with
  | nil => simp [connectLoop]
  | cons m rest ih =>
    have hrest : ∀ m' ∈ rest, m'.memberId = selfId ∨ (lookupA m'.memberId snapshot).isSome :=
      fun m' hm' => h m' (List.mem_cons_of_mem m hm')
    rcases h m (List.mem_cons_self m rest) with h1 | h1
    · simp [connectLoop, h1, ih s hrest]
    · by_cases hs : m.memberId = selfId
      · simp [connectLoop, hs, ih s hrest]
      · rcases ho : lookupA m.memberId snapshot with _ | w
        · rw [ho] at h1
          simp at h1
        · simp [connectLoop, hs, ho, ih s hrest]

/-! ### Claim theorems for the mesh negotiator -/

/-- Claim C1, counterexample.  The claim states that `createOffer` / offer
handling for an already-registered peerId is rejected or ignored rather
than replacing the existing entry; with Bob already registered,
`createOffer` replaces Bob's entry with a freshly created connection, and
`handleOffer` from Bob does the same. -/

theorem C1_counterexample :
    lookupA "bob" (createOffer meshEx "bob" userBob).1.peers ≠ some entryBob0
    ∧ (createOffer meshEx "bob" userBob).1.peers ≠ meshEx.peers
    ∧ lookupA "bob"
        (handleOffer meshEx { fromId := "bob", offer := "sdpO", roomId := "room1" }).1.peers
      ≠ some entryBob0 := by
  decide

/-- Claim C1, amended: the registry, being keyed by peerId, holds at most one
entry per peerId and both creation paths preserve key uniqueness, but
neither `createOffer` nor `handleOffer` for an already-registered peerId
is rejected or ignored — each stores a freshly created connection,
replacing the existing entry in place (other entries are untouched). -/

theorem C1_registry_replaces_on_reinitiate
    (s : MeshState) (room : Room) (u targetUser : User) (pid : String) (e : PeerEntry)
    (hroom : s.currentRoom = some room) (huser : s.currentUser = some u)
    (hreg : lookupA pid s.peers = some e)
    (hn : (s.peers.map Prod.fst).Nodup)
    (hfresh : ∀ kv ∈ s.peers, kv.2.connId < s.nextConn)
    (d : OfferData) (hdf : d.fromId = pid) (hdr : d.roomId = room.id)
    (m : RoomMember)
    (hfind : room.participants.find? (fun p => p.memberId = pid) = some m) :
    ((createOffer s pid targetUser).1.peers.map Prod.fst).Nodup
    ∧ lookupA pid (createOffer s pid targetUser).1.peers =
        some { peerId := pid, connId := s.nextConn, user := targetUser,
               remoteDesc := none, candidates := [], stream := none }
    ∧ lookupA pid (createOffer s pid targetUser).1.peers ≠ some e
    ∧ (∀ q, q ≠ pid → lookupA q (createOffer s pid targetUser).1.peers = lookupA q s.peers)
    ∧ ((handleOffer s d).1.peers.map Prod.fst).Nodup
    ∧ lookupA pid (handleOffer s d).1.peers =
        some { peerId := pid, connId := s.nextConn, user := m.userData,
               remoteDesc := some d.offer, candidates := [], stream := none }
    ∧ lookupA pid (handleOffer s d).1.peers ≠ some e
    ∧ (∀ q, q ≠ pid → lookupA q (handleOffer s d).1.peers = lookupA q s.peers) := by
  have hpeers : (createOffer s pid targetUser).1.peers =
      upsertA pid { peerId := pid, connId := s.nextConn, user := targetUser,
                    remoteDesc := none, candidates := [], stream := none } s.peers := by
    simp [createOffer, hroom, huser]
  have hopeers : (handleOffer s d).1.peers =
      upsertA pid { peerId := pid, connId := s.nextConn, user := m.userData,
                    remoteDesc := some d.offer, candidates := [], stream := none } s.peers := by
    simp [handleOffer, hroom, huser, hdr, hdf, hfind]
  have hlt : e.connId < s.nextConn := hfresh (pid, e) (lookupA_mem pid e s.peers hreg)
  refine ⟨?_, ?_, ?_, ?_, ?_, ?_, ?_, ?_⟩
  · rw [hpeers]
    exact upsertA_nodup_keys _ _ _ hn
  · rw [hpeers]
    exact lookupA_upsertA_self _ _ _
  · rw [hpeers, lookupA_upsertA_self]
    intro hcontra
    have : s.nextConn = e.connId := congrArg PeerEntry.connId (Option.some.inj hcontra)
    omega
  · intro q hq
    rw [hpeers]
    exact lookupA_upsertA_ne _ _ _ _ hq
  · rw [hopeers]
    exact upsertA_nodup_keys _ _ _ hn
  · rw [hopeers]
    exact lookupA_upsertA_self _ _ _
  · rw [hopeers, lookupA_upsertA_self]
    intro hcontra
    have : s.nextConn = e.connId := congrArg PeerEntry.connId (Option.some.inj hcontra)
    omega
  · intro q hq
    rw [hopeers]
    exact lookupA_upsertA_ne _ _ _ _ hq

/-- Witness for the amended C1 at a concrete state: Bob is registered with
connection 0, and re-initiating replaces the entry rather than keeping it. -/

theorem C1_registry_replaces_on_reinitiate_witness :
    lookupA "bob" (createOffer meshEx "bob" userBob).1.peers ≠ some entryBob0
    ∧ lookupA "bob"
        (handleOffer meshEx { fromId := "bob", offer := "sdpO", roomId := "room1" }).1.peers
      ≠ some entryBob0
    ∧ (∀ q, q ≠ "bob" →
        lookupA q (createOffer meshEx "bob" userBob).1.peers = lookupA q meshEx.peers) := by
  obtain ⟨h1, h2, h3, h4, h5, h6, h7, h8⟩ :=
    C1_registry_replaces_on_reinitiate meshEx roomEx userAlice userBob "bob" entryBob0
      rfl rfl (by decide) (by decide) (by decide)
      { fromId := "bob", offer := "sdpO", roomId := "room1" } rfl rfl
      (RoomMember.enriched "bob" userBob) (by decide)
  exact ⟨h3, h7, h4⟩

/-- Claim C5: `connectToAllParticipants` is idempotent — a second call with
the roster unchanged leaves the whole state (in particular the registry
contents) exactly as after the first call and emits no further offers. -/

theorem C5_connectToAllParticipants_idempotent (s : MeshState) :
    connectToAllParticipants (connectToAllParticipants s).1
      = ((connectToAllParticipants s).1, []) := by
  rcases hr : s.currentRoom with _ | room
  · simp [connectToAllParticipants, hr]
  rcases hu : s.currentUser with _ | v
  · simp [connectToAllParticipants, hr, hu]
  have hfirst : (connectToAllParticipants s).1
      = (connectLoop s.peers v.id room.participants s).1 :=
    congrArg Prod.fst (connectToAllParticipants_eq s room v hr hu)
  have hctx := connectLoop_preserves_context s.peers v.id room.participants s
  have hr1 : (connectToAllParticipants s).1.currentRoom = some room := by
    rw [hfirst, hctx.1, hr]
  have hu1 : (connectToAllParticipants s).1.currentUser = some v := by
    rw [hfirst, hctx.2, hu]
  have hcov := connectLoop_covers s.peers v.id room.participants s room v hr hu
    (fun k hk => hk)
  rw [connectToAllParticipants_eq _ room v hr1 hu1]
  apply connectLoop_skip
  intro m hm
  rcases hcov m hm with h | h
  · exact Or.inl h
  · right
    rw [hfirst]
    exact h

/-- Claim C7: an offer, answer, or ice-candidate envelope whose roomId does
not match the receiver's current room is discarded — the handler leaves
the state untouched and sends nothing. -/

theorem C7_wrong_room_discarded (s : MeshState) (room : Room)
    (hroom : s.currentRoom = some room)
    (dO : OfferData) (dA : AnswerData) (dI : IceData)
    (hO : dO.roomId ≠ room.id) (hA : dA.roomId ≠ room.id) (hI : dI.roomId ≠ room.id) :
    handleOffer s dO = (s, [])
    ∧ handleAnswer s dA = (s, [])
    ∧ handleIceCandidate s dI = (s, []) := by
  refine ⟨?_, ?_, ?_⟩
  · rcases hu : s.currentUser with _ | u
    · simp [handleOffer, hroom, hu]
    · simp [handleOffer, hroom, hu, hO]
  · simp [handleAnswer, hroom, hA]
  · simp [handleIceCandidate, hroom, hI]

/-- Witness for C7 at concrete envelopes tagged with a different room. -/

theorem C7_wrong_room_discarded_witness :
    handleOffer meshEx { fromId := "bob", offer := "o", roomId := "other" } = (meshEx, [])
    ∧ handleAnswer meshEx { fromId := "bob", answer := "a", roomId := "other" } = (meshEx, [])
    ∧ handleIceCandidate meshEx { fromId := "bob", candidate := "c", roomId := "other" }
        = (meshEx, []) :=
  C7_wrong_room_discarded meshEx roomEx rfl
    { fromId := "bob", offer := "o", roomId := "other" }
    { fromId := "bob", answer := "a", roomId := "other" }
    { fromId := "bob", candidate := "c", roomId := "other" }
    (by decide) (by decide) (by decide)

/-- Claim C8: an ice-candidate envelope from a peer with no registry entry is
silently ignored — the handler returns normally with the state untouched
and sends nothing. -/

theorem C8_unknown_peer_ice_ignored (s : MeshState) (d : IceData)
    (h : lookupA d.fromId s.peers = none) :
    handleIceCandidate s d = (s, []) := by
  rcases hr : s.currentRoom with _ | room
  · simp [handleIceCandidate, hr]
  · by_cases hid : d.roomId = room.id
    · simp [handleIceCandidate, hr, hid, h]
    · simp [handleIceCandidate, hr, hid]

/-- Witness for C8: an in-room candidate from the unregistered peer
`carol` is dropped. -/

theorem C8_unknown_peer_ice_ignored_witness :
    handleIceCandidate meshEx { fromId := "carol", candidate := "c", roomId := "room1" }
      = (meshEx, []) :=
  C8_unknown_peer_ice_ignored meshEx
    { fromId := "carol", candidate := "c", roomId := "room1" } (by decide)

/-- Claim C10: an answer envelope from a peer with no registry entry is
silently dropped — the handler returns normally with the state untouched,
applying no remote description and sending nothing. -/

theorem C10_unknown_peer_answer_dropped (s : MeshState) (d : AnswerData)
    (h : lookupA d.fromId s.peers = none) :
    handleAnswer s d = (s, []) := by
  rcases hr : s.currentRoom with _ | room
  · simp [handleAnswer, hr]
  · by_cases hid : d.roomId = room.id
    · simp [handleAnswer, hr, hid, h]
    · simp [handleAnswer, hr, hid]

/-- Witness for C10: an in-room answer from the unregistered peer `carol`
is dropped. -/

theorem C10_unknown_peer_answer_dropped_witness :
    handleAnswer meshEx { fromId := "carol", answer := "a", roomId := "room1" }
      = (meshEx, []) :=
  C10_unknown_peer_answer_dropped meshEx
    { fromId := "carol", answer := "a", roomId := "room1" } (by decide)

/-! ### SFU helper lemmas -/

theorem lookupA_eraseA_self {β : Type} (k : String) (l : List (String × β))
    (h : (l.map Prod.fst).Nodup) : lookupA k (eraseA k l) = none := by
  induction l with
  | nil => simp [eraseA, lookupA]
  | cons kv rest ih =>
    obtain ⟨k', v'⟩ := kv
    simp only [List.map_cons, List.nodup_cons] at h
    by_cases hk : k' = k
    · subst hk
      simp only [eraseA, if_pos rfl]
      exact (lookupA_eq_none_iff k' rest).mpr h.1
    · simp [eraseA, hk, lookupA, ih h.2]

theorem mem_eraseA_of_mem {β : Type} (k : String) (kv : String × β) (l : List (String × β))
    (h : kv ∈ l) (hne : kv.1 ≠ k) : kv ∈ eraseA k l := by
  induction l with
  | nil => simp at h
  | cons kv' rest ih =>
    obtain ⟨k', v'⟩ := kv'
    rcases List.mem_cons.mp h with h1 | h1
    · subst h1
      have hk : ¬(k' = k) := by simpa using hne
      simp [eraseA, hk]
    · by_cases hk : k' = k
      · simpa [eraseA, hk] using h1
      · simp only [eraseA, if_neg hk]
        exact List.mem_cons_of_mem _ (ih h1)

theorem removeParticipant_subset (cid : String) (l : List (String × RemoteParticipant))
    (kv : String × RemoteParticipant)
    (h : kv ∈ (removeParticipantByConsumer cid l).1) : kv ∈ l := by
  induction l with
  | nil => simp [removeParticipantByConsumer] at h
  | cons kv' rest ih =>
    obtain ⟨pid, part⟩ := kv'
    by_cases hm : participantConsumerIs part cid = true
    · simp only [removeParticipantByConsumer, hm, if_true] at h
      exact List.mem_cons_of_mem _ h
    · simp only [removeParticipantByConsumer, hm, Bool.false_eq_true, if_false] at h
      rcases List.mem_cons.mp h with h1 | h1
      · simp [h1]
      · exact List.mem_cons_of_mem _ (ih h1)

theorem removeParticipant_keeps_nonmatching (cid : String)
    (l : List (String × RemoteParticipant)) (kv : String × RemoteParticipant)
    (h : kv ∈ l) (hnm : participantConsumerIs kv.2 cid = false) :
    kv ∈ (removeParticipantByConsumer cid l).1 := by
  induction l with
  | nil => simp at h
  | cons kv' rest ih =>
    obtain ⟨pid, part⟩ := kv'
    rcases List.mem_cons.mp h with h1 | h1
    · subst h1
      simp only [removeParticipantByConsumer]
      simp only at hnm
      simp [hnm]
    · by_cases hm : participantConsumerIs part cid = true
      · simpa [removeParticipantByConsumer, hm] using h1
      · simp only [removeParticipantByConsumer, hm, Bool.false_eq_true, if_false]
        exact List.mem_cons_of_mem _ (ih h1)

theorem removeParticipant_result_nonmatching (cid : String)
    (l : List (String × RemoteParticipant))
    (huniq : (l.filter fun kv => participantConsumerIs kv.2 cid).length ≤ 1)
    (kv : String × RemoteParticipant)
    (h : kv ∈ (removeParticipantByConsumer cid l).1) :
    participantConsumerIs kv.2 cid = false := by
  induction l with
  | nil => simp [removeParticipantByConsumer] at h
  | cons kv' rest ih =>
    obtain ⟨pid, part⟩ := kv'
    by_cases hm : participantConsumerIs part cid = true
    · simp only [removeParticipantByConsumer, hm, if_true] at h
      have hflen : (rest.filter fun kv => participantConsumerIs kv.2 cid).length = 0 := by
        simp only [List.filter_cons, hm, if_true, List.length_cons] at huniq
        omega
      have hfe : rest.filter (fun kv => participantConsumerIs kv.2 cid) = [] :=
        List.length_eq_zero.mp hflen
      by_contra hc
      simp only [Bool.not_eq_false] at hc
      have hmem : kv ∈ rest.filter fun kv => participantConsumerIs kv.2 cid :=
        List.mem_filter.mpr ⟨h, hc⟩
      rw [hfe] at hmem
      simp at hmem
    · simp only [removeParticipantByConsumer, hm, Bool.false_eq_true, if_false] at h
      rcases List.mem_cons.mp h with h1 | h1
      · subst h1
        simpa using hm
      · refine ih ?_ h1
        simpa [List.filter_cons, hm] using huniq

theorem removeParticipant_removes_match (cid : String)
    (l : List (String × RemoteParticipant))
    (hn : (l.map Prod.fst).Nodup)
    (huniq : (l.filter fun kv => participantConsumerIs kv.2 cid).length ≤ 1)
    (pid : String) (part : RemoteParticipant)
    (h : (pid, part) ∈ l) (hm : participantConsumerIs part cid = true) :
    lookupA pid (removeParticipantByConsumer cid l).1 = none
    ∧ SFUOut.remoteStreamRemoved pid ∈ (removeParticipantByConsumer cid l).2
    ∧ SFUOut.participantLeft pid ∈ (removeParticipantByConsumer cid l).2 := by
  induction l with
  | nil => simp at h
  | cons kv' rest ih =>
    obtain ⟨pid', part'⟩ := kv'
    simp only [List.map_cons, List.nodup_cons] at hn
    by_cases hm' : participantConsumerIs part' cid = true
    · rcases List.mem_cons.mp h with h1 | h1
      · have hpe : pid = pid' := congrArg Prod.fst h1
        subst hpe
        refine ⟨?_, ?_, ?_⟩
        · simp only [removeParticipantByConsumer, hm', if_true]
          exact (lookupA_eq_none_iff pid rest).mpr hn.1
        · simp [removeParticipantByConsumer, hm']
        · simp [removeParticipantByConsumer, hm']
      · exfalso
        have hmem : (pid, part) ∈ rest.filter fun kv => participantConsumerIs kv.2 cid :=
          List.mem_filter.mpr ⟨h1, hm⟩
        have hlen : 1 ≤ (rest.filter fun kv => participantConsumerIs kv.2 cid).length :=
          List.length_pos.mpr (List.ne_nil_of_mem hmem)
        simp only [List.filter_cons, hm', if_true, List.length_cons] at huniq
        omega
    · rcases List.mem_cons.mp h with h1 | h1
      · exfalso
        have : part = part' := congrArg Prod.snd h1
        rw [this] at hm
        exact hm' hm
      · have hres := ih hn.2 (by simpa [List.filter_cons, hm'] using huniq) h1
        have hpid : pid' ≠ pid := by
          intro he
          subst he
          exact hn.1 (List.mem_map_of_mem Prod.fst h1)
        refine ⟨?_, ?_, ?_⟩
        · simp only [removeParticipantByConsumer, hm', Bool.false_eq_true, if_false]
          simpa [lookupA, hpid] using hres.1
        · simp only [removeParticipantByConsumer, hm', Bool.false_eq_true, if_false]
          exact hres.2.1
        · simp only [removeParticipantByConsumer, hm', Bool.false_eq_true, if_false]
          exact hres.2.2

/-! ### Claim theorems for the SFU session manager -/

/-- Claim C2, counterexample.  The claim states that a consume deferred for
want of a receive transport is automatically retried once the
transport-created(recv) event arrives; on a fresh session, `consume "p1"`
emits only the create-transport request and records nothing, and the
subsequent transport-created(recv) event emits nothing — in particular no
consume request for `p1` is ever emitted over the trace. -/

theorem C2_counterexample :
    consume sfuInit "p1" = (sfuInit, [SFUOut.createTransport Direction.recv])
    ∧ (onTransportCreated sfuInit Direction.recv "t1").2 = []
    ∧ SFUOut.consumeReq "p1" ∉
        (consume sfuInit "p1").2
          ++ (onTransportCreated (consume sfuInit "p1").1 Direction.recv "t1").2 := by
  decide

/-- Claim C2, amended: `consume(producerId)` called while no receive
transport exists emits the create-transport(recv) request and returns with
the state unchanged (the producerId is not recorded), and the
transport-created handler installs the transport but emits nothing — the
deferred consume is not retried without a new external trigger. -/

theorem C2_consume_not_retried (s : SFUState) (producerId : String)
    (h : s.recvTransport = none) :
    consume s producerId = (s, [SFUOut.createTransport Direction.recv])
    ∧ (∀ s' d tid, (onTransportCreated s' d tid).2 = [])
    ∧ (∀ s' d tid, SFUOut.consumeReq producerId ∉ (onTransportCreated s' d tid).2) := by
  refine ⟨by simp [consume, h], ?_, ?_⟩
  · intro s' d tid
    cases d <;> simp [onTransportCreated]
  · intro s' d tid
    cases d <;> simp [onTransportCreated]

/-- Witness for the amended C2 on a fresh session. -/

theorem C2_consume_not_retried_witness :
    consume sfuInit "p1" = (sfuInit, [SFUOut.createTransport Direction.recv])
    ∧ SFUOut.consumeReq "p1" ∉ (onTransportCreated sfuInit Direction.recv "t1").2 := by
  obtain ⟨h1, h2, h3⟩ := C2_consume_not_retried sfuInit "p1" rfl
  exact ⟨h1, h3 sfuInit Direction.recv "t1"⟩

/-- Claim C3, counterexample.  The claim states that every
sfu:consumer-created event leads to a stream being built, the participant
entry upserted, the UI notified and a resume-consumer request emitted; on
a session whose consumers map does not hold the event's id (the observed
client never inserts into that map), the handler does nothing: state
unchanged, no participant entry, no resume request. -/

theorem C3_counterexample :
    onConsumerCreated sfuInit "c1" "peerA" MKind.video = (sfuInit, [])
    ∧ lookupA "peerA"
        (onConsumerCreated sfuInit "c1" "peerA" MKind.video).1.remoteParticipants = none
    ∧ SFUOut.resumeConsumer "c1" ∉ (onConsumerCreated sfuInit "c1" "peerA" MKind.video).2 := by
  decide

/-- Claim C3, amended: provided the consumers map holds the event's consumer
id, the handler builds the single-track stream, upserts the participant
entry for the producing peer (created on first sight with the event's
media kind, updated in place thereafter, other entries untouched and key
uniqueness preserved), notifies the UI of the stream, and emits the
resume-consumer request; when the id is absent the event is ignored. -/

theorem C3_consumer_created_upserts (s : SFUState) (cid ppid : String) (kind : MKind)
    (c : Consumer) (hc : lookupA cid s.consumers = some c) :
    SFUOut.resumeConsumer cid ∈ (onConsumerCreated s cid ppid kind).2
    ∧ SFUOut.remoteStream ppid [c.track] ∈ (onConsumerCreated s cid ppid kind).2
    ∧ (lookupA ppid s.remoteParticipants = none →
        lookupA ppid (onConsumerCreated s cid ppid kind).1.remoteParticipants
          = some { peerId := ppid, userName := "User " ++ ppid, consumer := some c,
                   stream := some [c.track],
                   mediaState := { video := decide (kind = MKind.video),
                                   audio := decide (kind = MKind.audio),
                                   screenShare := false } }
        ∧ SFUOut.participantJoined ppid ∈ (onConsumerCreated s cid ppid kind).2)
    ∧ (∀ old, lookupA ppid s.remoteParticipants = some old →
        lookupA ppid (onConsumerCreated s cid ppid kind).1.remoteParticipants
          = some { old with consumer := some c, stream := some [c.track] }
        ∧ SFUOut.participantJoined ppid ∉ (onConsumerCreated s cid ppid kind).2)
    ∧ (∀ q, q ≠ ppid →
        lookupA q (onConsumerCreated s cid ppid kind).1.remoteParticipants
          = lookupA q s.remoteParticipants)
    ∧ ((s.remoteParticipants.map Prod.fst).Nodup →
        ((onConsumerCreated s cid ppid kind).1.remoteParticipants.map Prod.fst).Nodup)
    ∧ (∀ cid', lookupA cid' s.consumers = none →
        onConsumerCreated s cid' ppid kind = (s, [])) := by
  rcases hp : lookupA ppid s.remoteParticipants with _ | old
  · refine ⟨?_, ?_, ?_, ?_, ?_, ?_, ?_⟩
    · simp [onConsumerCreated, hc, hp]
    · simp [onConsumerCreated, hc, hp]
    · intro _
      refine ⟨?_, ?_⟩
      · simp [onConsumerCreated, hc, hp, lookupA_upsertA_self]
      · simp [onConsumerCreated, hc, hp]
    · intro old hold
      exact absurd hold (by simp)
    · intro q hq
      simp [onConsumerCreated, hc, hp, lookupA_upsertA_ne _ _ _ _ hq]
    · intro hn
      simpa [onConsumerCreated, hc, hp] using upsertA_nodup_keys ppid _ _ hn
    · intro cid' h'
      simp [onConsumerCreated, h']
  · refine ⟨?_, ?_, ?_, ?_, ?_, ?_, ?_⟩
    · simp [onConsumerCreated, hc, hp]
    · simp [onConsumerCreated, hc, hp]
    · intro hnone
      exact absurd hnone (by simp)
    · intro old' hold
      obtain rfl : old = old' := Option.some.inj hold
      refine ⟨?_, ?_⟩
      · simp [onConsumerCreated, hc, hp, lookupA_upsertA_self]
      · simp [onConsumerCreated, hc, hp]
    · intro q hq
      simp [onConsumerCreated, hc, hp, lookupA_upsertA_ne _ _ _ _ hq]
    · intro hn
      simpa [onConsumerCreated, hc, hp] using upsertA_nodup_keys ppid _ _ hn
    · intro cid' h'
      simp [onConsumerCreated, h']

/-- Witness for the amended C3: with consumer `c1` registered, the event
creates the participant entry and emits the resume request. -/

theorem C3_consumer_created_upserts_witness :
    SFUOut.resumeConsumer "c1" ∈ (onConsumerCreated sfuWithConsumer "c1" "peerA" MKind.video).2
    ∧ lookupA "peerA"
        (onConsumerCreated sfuWithConsumer "c1" "peerA" MKind.video).1.remoteParticipants
      = some { peerId := "peerA", userName := "User " ++ "peerA", consumer := some consumerC1,
               stream := some [consumerC1.track],
               mediaState := { video := decide (MKind.video = MKind.video),
                               audio := decide (MKind.video = MKind.audio),
                               screenShare := false } } := by
  obtain ⟨h1, h2, h3, h4, h5, h6, h7⟩ :=
    C3_consumer_created_upserts sfuWithConsumer "c1" "peerA" MKind.video consumerC1 (by decide)
  exact ⟨h1, (h3 (by decide)).1⟩

/-- Claim C4: the consumer-closed handler closes and drops the named consumer
from the map (other consumers untouched), removes exactly the participant
entry owning it — firing the stream-removed and participant-left
callbacks for that peer — and leaves every participant entry whose
consumer is a different live one intact. -/

theorem C4_consumer_closed_removes_owner (s : SFUState) (cid : String) (c : Consumer)
    (hc : lookupA cid s.consumers = some c)
    (hnc : (s.consumers.map Prod.fst).Nodup)
    (hnp : (s.remoteParticipants.map Prod.fst).Nodup)
    (huniq : (s.remoteParticipants.filter fun kv => participantConsumerIs kv.2 cid).length ≤ 1) :
    lookupA cid (onConsumerClosed s cid).1.consumers = none
    ∧ SFUOut.consumerClosed cid ∈ (onConsumerClosed s cid).2
    ∧ (∀ kv ∈ s.consumers, kv.1 ≠ cid → kv ∈ (onConsumerClosed s cid).1.consumers)
    ∧ (∀ kv ∈ s.remoteParticipants, participantConsumerIs kv.2 cid = false →
        kv ∈ (onConsumerClosed s cid).1.remoteParticipants)
    ∧ (∀ kv ∈ (onConsumerClosed s cid).1.remoteParticipants,
        kv ∈ s.remoteParticipants ∧ participantConsumerIs kv.2 cid = false)
    ∧ (∀ pid part, (pid, part) ∈ s.remoteParticipants →
        participantConsumerIs part cid = true →
          lookupA pid (onConsumerClosed s cid).1.remoteParticipants = none
          ∧ SFUOut.remoteStreamRemoved pid ∈ (onConsumerClosed s cid).2
          ∧ SFUOut.participantLeft pid ∈ (onConsumerClosed s cid).2) := by
  have hred : onConsumerClosed s cid =
      ({ s with consumers := eraseA cid s.consumers,
                remoteParticipants := (removeParticipantByConsumer cid s.remoteParticipants).1 },
       SFUOut.consumerClosed cid :: (removeParticipantByConsumer cid s.remoteParticipants).2) := by
    simp [onConsumerClosed, hc]
  refine ⟨?_, ?_, ?_, ?_, ?_, ?_⟩
  · rw [hred]
    exact lookupA_eraseA_self cid s.consumers hnc
  · rw [hred]
    exact List.mem_cons_self _ _
  · intro kv hkv hne
    rw [hred]
    exact mem_eraseA_of_mem cid kv s.consumers hkv hne
  · intro kv hkv hnm
    rw [hred]
    exact removeParticipant_keeps_nonmatching cid s.remoteParticipants kv hkv hnm
  · intro kv hkv
    rw [hred] at hkv
    exact ⟨removeParticipant_subset cid s.remoteParticipants kv hkv,
           removeParticipant_result_nonmatching cid s.remoteParticipants huniq kv hkv⟩
  · intro pid part hmem hmatch
    have hres := removeParticipant_removes_match cid s.remoteParticipants hnp huniq
      pid part hmem hmatch
    rw [hred]
    exact ⟨hres.1, List.mem_cons_of_mem _ hres.2.1, List.mem_cons_of_mem _ hres.2.2⟩

/-- Witness for C4 on a session with two consumers owned by two participants:
closing `c1` drops it from the map, removes exactly `peerA` (with the
stream-removed callback) and keeps `peerB` intact. -/

theorem C4_consumer_closed_removes_owner_witness :
    lookupA "c1" (onConsumerClosed sfuTwo "c1").1.consumers = none
    ∧ ("peerB", partB) ∈ (onConsumerClosed sfuTwo "c1").1.remoteParticipants
    ∧ lookupA "peerA" (onConsumerClosed sfuTwo "c1").1.remoteParticipants = none
    ∧ SFUOut.remoteStreamRemoved "peerA" ∈ (onConsumerClosed sfuTwo "c1").2 := by
  obtain ⟨h1, h2, h3, h4, h5, h6⟩ :=
    C4_consumer_closed_removes_owner sfuTwo "c1" consumerC1
      (by decide) (by decide) (by decide) (by decide)
  have hA := h6 "peerA" partA (by decide) (by decide)
  exact ⟨h1, h4 ("peerB", partB) (by decide) (by decide), hA.1, hA.2.1⟩

/-- Claim C6: with a local stream and one active video producer,
`toggleVideo false` then `toggleVideo true` keeps the video-producer count
at 1 throughout and ends with the very same producer resumed — no second
producer is ever created. -/

theorem C6_toggleVideo_resumes_existing_producer (s : SFUState) (tracks : List LocalTrack)
    (p : Producer) (hls : s.localStream = some tracks) (hp : s.producer = some p)
    (hk : p.kind = MKind.video) (hactive : p.paused = false) :
    videoProducerCount (toggleVideo (toggleVideo s false).1 true).1 = 1
    ∧ videoProducerCount (toggleVideo s false).1 = 1
    ∧ (toggleVideo s false).1.producer = some { p with paused := true }
    ∧ (toggleVideo (toggleVideo s false).1 true).1.producer = some p := by
  have h1 : toggleVideo s false
      = ({ s with localStream := some (enableFirstVideoTrack false tracks),
                  producer := some { p with paused := true } },
         [SFUOut.pauseProducer true]) := by
    simp [toggleVideo, hls, hp, hk]
  have h2p : (toggleVideo (toggleVideo s false).1 true).1.producer
      = some { p with paused := false } := by
    rw [h1]
    simp [toggleVideo, hk]
  have hpe : { p with paused := false } = p := by
    cases p
    simp only at hactive
    simp [hactive]
  refine ⟨?_, ?_, ?_, ?_⟩
  · simp [videoProducerCount, h2p, hk]
  · rw [h1]
    simp [videoProducerCount, hk]
  · rw [h1]
  · rw [h2p, hpe]

/-- Witness for C6 on the concrete connected session. -/

theorem C6_toggleVideo_resumes_existing_producer_witness :
    videoProducerCount (toggleVideo (toggleVideo sfuTwo false).1 true).1 = 1
    ∧ (toggleVideo (toggleVideo sfuTwo false).1 true).1.producer
        = some { producerId := 7, kind := MKind.video, paused := false } := by
  obtain ⟨h1, h2, h3, h4⟩ :=
    C6_toggleVideo_resumes_existing_producer sfuTwo
      [{ kind := MKind.video, enabled := true }, { kind := MKind.audio, enabled := true }]
      { producerId := 7, kind := MKind.video, paused := false }
      rfl rfl rfl rfl
  exact ⟨h1, h4⟩

/-- Claim C9: `disconnect` sends every session state — uninitialized,
connected, or already disconnected — to the cleared disconnected state
(empty consumer and participant maps, no producer, no transports, no
local stream, not connected), emitting a close for every held consumer,
the producer and each transport and a stop for every local track; calling
it again leaves that same state, so it is idempotent and safe from any
state. -/

theorem C9_disconnect_idempotent_and_complete (s : SFUState) :
    (disconnect s).1 = sfuInit
    ∧ disconnect (disconnect s).1 = (sfuInit, [SFUOut.connectionState "disconnected"])
    ∧ (disconnect s).1.consumers = []
    ∧ (disconnect s).1.remoteParticipants = []
    ∧ (disconnect s).1.producer = none
    ∧ (disconnect s).1.sendTransport = none
    ∧ (disconnect s).1.recvTransport = none
    ∧ (disconnect s).1.localStream = none
    ∧ (disconnect s).1.isConnected = false
    ∧ (∀ kv ∈ s.consumers, SFUOut.consumerClosed kv.2.id ∈ (disconnect s).2)
    ∧ (s.producer.isSome = true → SFUOut.producerClosed ∈ (disconnect s).2)
    ∧ (s.sendTransport.isSome = true →
        SFUOut.transportClosed Direction.send ∈ (disconnect s).2)
    ∧ (s.recvTransport.isSome = true →
        SFUOut.transportClosed Direction.recv ∈ (disconnect s).2)
    ∧ (∀ tracks, s.localStream = some tracks →
        ∀ t ∈ tracks, SFUOut.trackStopped t.kind ∈ (disconnect s).2) := by
  refine ⟨rfl, rfl, rfl, rfl, rfl, rfl, rfl, rfl, rfl, ?_, ?_, ?_, ?_, ?_⟩
  · intro kv hkv
    have hx : SFUOut.consumerClosed kv.2.id
        ∈ s.consumers.map fun kv => SFUOut.consumerClosed kv.2.id :=
      List.mem_map_of_mem _ hkv
    simp only [disconnect, List.mem_append]
    tauto
  · intro hp
    rcases Option.isSome_iff_exists.mp hp with ⟨p, hp'⟩
    simp [disconnect, hp']
  · intro hp
    rcases Option.isSome_iff_exists.mp hp with ⟨t, ht⟩
    simp [disconnect, ht]
  · intro hp
    rcases Option.isSome_iff_exists.mp hp with ⟨t, ht⟩
    simp [disconnect, ht]
  · intro tracks hls t ht
    have hx : SFUOut.trackStopped t.kind
        ∈ tracks.map fun t => SFUOut.trackStopped t.kind :=
      List.mem_map_of_mem _ ht
    simp only [disconnect, hls, List.mem_append]
    tauto

/-- Witness for C9 on the fully populated session (two consumers, one
producer, two transports, two local tracks). -/

theorem C9_disconnect_idempotent_and_complete_witness :
    (disconnect sfuTwo).1 = sfuInit
    ∧ SFUOut.producerClosed ∈ (disconnect sfuTwo).2
    ∧ SFUOut.transportClosed Direction.send ∈ (disconnect sfuTwo).2
    ∧ SFUOut.transportClosed Direction.recv ∈ (disconnect sfuTwo).2
    ∧ SFUOut.consumerClosed "c1" ∈ (disconnect sfuTwo).2 := by
  obtain ⟨h1, h2, h3, h4, h5, h6, h7, h8, h9, h10, h11, h12, h13, h14⟩ :=
    C9_disconnect_idempotent_and_complete sfuTwo
  refine ⟨h1, h11 (by decide), h12 (by decide), h13 (by decide), ?_⟩
  have := h10 ("c1", consumerC1) (by decide)
  simpa using this

end VDO
